import Mathlib

/-!
# Formalisation of the descriptive-statistics dataset profilers

Shallow embedding of the CSV profiling scripts in `2024_fb_ads/`,
`2024_fb_posts/` and `2024_tw_posts/` (pure-Python, pandas and polars
variants).  A loaded cell is modelled as `Option String`: `none` is
Python `None` (a recognised null marker), `some s` a string value.
Numeric conversion of cells is modelled, where a claim needs it, by an
explicit numeric-view parameter, and the float-parsability test of
Python's `float()` / `pd.to_numeric` by a Boolean predicate parameter.
-/

namespace DescStats

/-- A loaded cell: `none` models Python `None`, `some s` a string value. -/
abbrev Cell := Option String

/-- A loaded row: the list of its cells, padded/truncated to the header
length during loading. -/
abbrev Row := List Cell

/-! ## Delimiter auto-detection (`load_and_clean_data`, all three fb_ads scripts)

Each script reads the first line of the file and picks
`'\t' if first_line.count('\t') > first_line.count(',') else ','`. -/

/-- `s.count(c)` for a single character, as in Python `str.count`. -/
def countChar (c : Char) (s : String) : Nat :=
  (s.toList.filter (fun x => x = c)).length

/-- Delimiter choice of `pure_python_stats.py` (2024_fb_ads, line 50). -/
def detectDelimPurePython (firstLine : String) : Char :=
  if countChar '\t' firstLine > countChar ',' firstLine then '\t' else ','

/-- Delimiter choice of `pandas_stats.py` (2024_fb_ads, line 51). -/
def detectDelimPandas (firstLine : String) : Char :=
  if countChar '\t' firstLine > countChar ',' firstLine then '\t' else ','

/-- Delimiter choice of `polars_stats.py` (2024_fb_ads, line 59). -/
def detectDelimPolars (firstLine : String) : Char :=
  if countChar '\t' firstLine > countChar ',' firstLine then '\t' else ','

/-- The first line of a file, modelled as `f.readline()` on the list of
lines; on an empty file Python's `readline` returns the empty string. -/
def fileFirstLine (lines : List String) : String := lines.headD ""

/-- The delimiter the pure-Python script uses for a whole file. -/
def fileDelimPurePython (lines : List String) : Char :=
  detectDelimPurePython (fileFirstLine lines)

/-! ## Duplicate removal (`pure_python_stats.py` 2024_fb_ads, lines 114-122)

The script joins the string forms of a row's cells with `'|'` and keeps a
row only when its joined key was not seen before. -/

/-- `str(cell) if cell is not None else ''`: the string form used in the
duplicate-removal key (a string cell's `str` is itself). -/
def dedupKeyPart (c : Cell) : String :=
  match c with
  | none => ""
  | some s => s

/-- The duplicate-removal key of a row:
`'|'.join(str(cell) if cell is not None else '' for cell in row)`. -/
def rowKey (row : Row) : String :=
  String.intercalate "|" (row.map dedupKeyPart)

/-- The `seen`-set loop of the duplicate removal, with the set of seen
keys carried as a list. -/
def dedupAux (key : α → String) : List α → List String → List α
  | [], _ => []
  | r :: rs, seen =>
    if key r ∈ seen then dedupAux key rs seen
    else r :: dedupAux key rs (key r :: seen)

/-- Duplicate removal: keep each row whose key has not occurred before
(source lines 116-122). -/
def removeDuplicates (key : α → String) (rows : List α) : List α :=
  dedupAux key rows []

/-! ## Group-by aggregation (the `defaultdict(list)` pattern)

`groups[key].append(row)` over the data builds, in first-appearance
order of the keys, one entry per key holding the rows of that group. -/

/-- Append `r` to the group of key `k`, creating the group at the end
when the key is new (the `defaultdict(list)` behaviour with Python's
insertion-ordered dict). -/
def insertGroup [DecidableEq κ] (k : κ) (r : α) :
    List (κ × List α) → List (κ × List α)
  | [] => [(k, [r])]
  | (k', rs) :: gs =>
    if k = k' then (k', rs ++ [r]) :: gs else (k', rs) :: insertGroup k r gs

/-- The grouping loop: `for row in data: groups[key(row)].append(row)`. -/
def groupByKey [DecidableEq κ] (key : α → κ) (rows : List α) :
    List (κ × List α) :=
  rows.foldl (fun gs r => insertGroup (key r) r gs) []

/-- Sum of the group sizes of a grouping. -/
def sizesSum (gs : List (κ × List α)) : Nat :=
  (gs.map (fun g => g.2.length)).sum

/-- Every row stored under a group carries that group's key. -/
def GroupsKeyed [DecidableEq κ] (key : α → κ) (gs : List (κ × List α)) : Prop :=
  ∀ g ∈ gs, ∀ r ∈ g.2, key r = g.1

/-- The keys present in a grouping. -/
def groupKeys (gs : List (κ × List α)) : List κ := gs.map Prod.fst

/-! ## Sorting (model of Python `sorted`)

Python's `sorted` is a stable comparison sort; we model it by a stable
insertion sort, which evaluates by kernel reduction. -/

/-- Insert `x` into a list sorted by the Boolean relation `le`, before
the first element it is `le`-related to (stable for `le` total). -/
def insertSorted (le : α → α → Bool) (x : α) : List α → List α
  | [] => [x]
  | y :: ys => if le x y then x :: y :: ys else y :: insertSorted le x ys

/-- Model of Python `sorted(l, ...)` with Boolean comparison `le`. -/
def sortBy (le : α → α → Bool) (l : List α) : List α :=
  l.foldr (insertSorted le) []

/-! ## fb_ads group-by (`perform_groupby_analysis`, pure_python_stats.py 211-257) -/

/-- `row[headers.index(col)]`: the cell of a row in a named column,
total via the `none` default (rows are padded to the header length
during loading). -/
def cellAt (headers : List String) (row : Row) (col : String) : Cell :=
  row.getD (headers.indexOf col) none

/-- `str(row[i]) if row[i] is not None else 'None'`: the string form
used in the group key (source line 225). -/
def groupKeyPart (c : Cell) : String :=
  match c with
  | none => "None"
  | some s => s

/-- The group key of a row: the tuple of string forms of its values in
the grouping columns. -/
def fbAdsGroupKey (headers cols : List String) (row : Row) : List String :=
  cols.map (fun c => groupKeyPart (cellAt headers row c))

/-- The grouping built by `perform_groupby_analysis` (source 220-226). -/
def fbAdsGroups (headers cols : List String) (data : List Row) :
    List (List String × List Row) :=
  groupByKey (fbAdsGroupKey headers cols) data

/-- The grouping stage of `perform_groupby_analysis`: `none` models the
early return when a grouping column is missing (source 215-218). -/
def performGroupby (headers cols : List String) (data : List Row) :
    Option (List (List String × List Row)) :=
  if (cols.filter (fun c => !(headers.contains c))).isEmpty then
    some (fbAdsGroups headers cols data)
  else none

/-- `sorted(groups.items(), key=lambda x: len(x[1]), reverse=True)`
(source line 228): groups in non-increasing order of size. -/
def sortGroupsBySize (gs : List (κ × List α)) : List (κ × List α) :=
  sortBy (fun a b => decide (b.2.length ≤ a.2.length)) gs

/-- `group_list[:n]`: the printed top-`n` groups (source 243, 250). -/
def topGroups (n : Nat) (gs : List (κ × List α)) : List (κ × List α) :=
  (sortGroupsBySize gs).take n

/-! ## fb_posts group-by (`analyze_by_facebook_id`,
2024_fb_posts/pure_python_stats.py 70-88) -/

/-- The grouping of `analyze_by_facebook_id`: rows grouped by their
`Facebook_Id` cell; `none` models the early return when the column is
missing. -/
def fbPostsGroupsByFacebookId (headers : List String) (data : List Row) :
    Option (List (Cell × List Row)) :=
  if headers.contains "Facebook_Id" then
    some (groupByKey (fun r => cellAt headers r "Facebook_Id") data)
  else none

/-- `list(groups.items())[:10]`: the ten groups printed under
"Top 10 Pages" (source line 80) — the first ten in first-appearance
order. -/
def fbPostsTopPages (headers : List String) (data : List Row) :
    Option (List (Cell × List Row)) :=
  (fbPostsGroupsByFacebookId headers data).map (fun gs => gs.take 10)

/-! ## Column type sniffing (fb_ads `load_and_clean_data`, lines 82-112)

The float-parsability test of Python's `float()` is a parameter
`parses : String → Bool`; the `>= 0.8` float comparison of
`numeric_count / len(vals[:100])` is the exact rational comparison
`5 * numeric_count ≥ 4 * len` (for counts bounded by 100 the float
division never rounds across the threshold). -/

/-- The complex JSON fields (source line 58). -/
def complexFields : List String :=
  ["delivery_by_region", "demographic_distribution", "publisher_platforms"]

/-- `raw_data[:sample_size] if len(raw_data) > 1000 else raw_data`
with `sample_size = min(1000, len(raw_data))` (source lines 83-84). -/
def sampleRows (raw : List Row) : List Row :=
  if raw.length > 1000 then raw.take (min 1000 raw.length) else raw

/-- `[row[i] for row in sample_data if row[i] is not None]`: the
non-null sampled values of column `i` (source line 92). -/
def colSample (raw : List Row) (i : Nat) : List String :=
  (sampleRows raw).filterMap (fun r => r.getD i none)

/-- `numeric_count`: how many of the first up-to-100 sampled values
parse as floats (source lines 97-102). -/
def numericSampleCount (parses : String → Bool) (vals : List String) : Nat :=
  ((vals.take 100).filter parses).length

/-- Whether the pure-Python analyzer classifies column `i` (named
`header`) as numeric (source lines 86-112): complex fields and columns
with no sampled value are categorical; otherwise numeric iff
`numeric_count / len(vals[:100]) >= 0.8`. -/
def isNumericColumn (parses : String → Bool) (raw : List Row) (i : Nat)
    (header : String) : Bool :=
  if header ∈ complexFields then false
  else
    let vals := colSample raw i
    if vals.isEmpty then false
    else 5 * numericSampleCount parses vals ≥ 4 * (vals.take 100).length

/-- The classification loop `for i, header in enumerate(self.headers)`
from column index `i`, returning the (numeric, categorical) lists in
header order. -/
def classifyFrom (parses : String → Bool) (raw : List Row) :
    List String → Nat → List String × List String
  | [], _ => ([], [])
  | h :: hs, i =>
    let rest := classifyFrom parses raw hs (i + 1)
    if isNumericColumn parses raw i h then (h :: rest.1, rest.2)
    else (rest.1, h :: rest.2)

/-- The (numeric, categorical) column lists the pure-Python fb_ads
analyzer builds. -/
def classifyHeaders (parses : String → Bool) (raw : List Row)
    (headers : List String) : List String × List String :=
  classifyFrom parses raw headers 0

/-- Whether the pandas analyzer classifies column `i` (named `header`)
as numeric (pandas_stats.py lines 80-98): complex fields and columns
whose sampled non-null values are empty are categorical; otherwise
`pd.to_numeric(sample_non_null.head(100), errors='raise')` succeeds —
and the column is numeric — iff every one of those values parses. -/
def pandasIsNumericColumn (parses : String → Bool) (df : List Row) (i : Nat)
    (header : String) : Bool :=
  if header ∈ complexFields then false
  else
    let nonNull := (df.take (min 1000 df.length)).filterMap (fun r => r.getD i none)
    if nonNull.isEmpty then false
    else (nonNull.take 100).all parses

/-- A concrete instance of the float-parsability predicate for closed
counterexamples: a non-empty all-digit string.  On the values used in
the counterexamples (`"1"`..`"4"` parse, `"x"` does not) it agrees with
Python `float()` and `pd.to_numeric`. -/
def digitsParse (s : String) : Bool :=
  s.length ≠ 0 && s.toList.all Char.isDigit

/-! ## `_fast_stats` (fb_ads pure_python_stats.py, lines 135-153) -/

/-- The record `_fast_stats` returns; the source's `std` is the square
root of the recorded `variance` (`variance ** 0.5`), which we keep in
exact rational form. -/
structure FastStats where
  count : Nat
  mean : Option ℚ
  variance : Option ℚ
  min : Option ℚ
  max : Option ℚ
  median : Option ℚ
deriving Repr, DecidableEq

/-- Python `min` over a non-empty list given as head and tail. -/
def pyMinOf (v : ℚ) (rest : List ℚ) : ℚ := rest.foldl min v

/-- Python `max` over a non-empty list given as head and tail. -/
def pyMaxOf (v : ℚ) (rest : List ℚ) : ℚ := rest.foldl max v

/-- Python `sorted(vals)` on rationals. -/
def pySorted (vals : List ℚ) : List ℚ :=
  sortBy (fun a b => decide (a ≤ b)) vals

/-- `_fast_stats(vals)` (source lines 135-153): empty and singleton
short-cuts, then count, mean, population variance, min, max and the
middle-of-sorted median. -/
def fastStats : List ℚ → FastStats
  | [] => ⟨0, none, none, none, none, none⟩
  | [v] => ⟨1, some v, some 0, some v, some v, some v⟩
  | v0 :: v1 :: rest =>
    let vals := v0 :: v1 :: rest
    let n := vals.length
    let mean := vals.sum / (n : ℚ)
    let variance := ((vals.map (fun x => (x - mean) ^ 2)).sum) / (n : ℚ)
    let s := pySorted vals
    let median :=
      if n % 2 = 1 then s.getD (n / 2) 0
      else (s.getD (n / 2 - 1) 0 + s.getD (n / 2) 0) / 2
    ⟨n, some mean, some variance, some (pyMinOf v0 (v1 :: rest)),
      some (pyMaxOf v0 (v1 :: rest)), some median⟩

/-! ## Analyzer state and the run skeleton (fb_ads `run_complete_analysis`)

The state a loaded analyzer carries: the in-memory table, the header
list and the column classification (pure_python_stats.py line 9).  The
(second, effective) definition of `run_complete_analysis`
(pure_python_stats.py lines 274-314) is modelled as the trace of
abstract events it prints. -/

structure AnalyzerState where
  data : List Row
  headers : List String
  numericCols : List String
  categoricalCols : List String
deriving Repr, DecidableEq

/-- The observable steps of a run. -/
inductive Event
  | banner
  | loadStep
  | noData
  | columnStats
  | groupReport (cols : List String)
  | completed
  | errorPrinted (msg : String)
deriving Repr, DecidableEq

/-- Python truthiness of a loaded cell (`if row[idx]`): `None` and the
empty string are falsy. -/
def truthy (c : Cell) : Bool :=
  match c with
  | none => false
  | some s => s != ""

/-- The additional-grouping candidates (source lines 294-302): among
the first 10 categorical columns other than `page_id`/`ad_id`, those
whose first-1000-rows truthy sample has between 2 and 20 distinct
values, with that distinct count. -/
def candidateCols (st : AnalyzerState) : List (String × Nat) :=
  (st.categoricalCols.take 10).filterMap (fun col =>
    if col = "page_id" || col = "ad_id" then none
    else
      let idx := st.headers.indexOf col
      let vals := (st.data.take 1000).filterMap (fun r =>
        let c := r.getD idx none
        if truthy c then some (groupKeyPart c) else none)
      if vals.isEmpty then none
      else
        let u := vals.dedup.length
        if 2 ≤ u ∧ u ≤ 20 then some (col, u) else none)

/-- `candidates.sort(key=lambda x: x[1]); best_col = candidates[0][0]`
(source lines 304-306), `none` when there is no candidate. -/
def bestCandidate (st : AnalyzerState) : Option String :=
  ((sortBy (fun a b : String × Nat => decide (a.2 ≤ b.2)) (candidateCols st)).head?).map
    Prod.fst

/-- The event trace of the effective `run_complete_analysis`
(source lines 274-314), given the state `load_and_clean_data` built. -/
def runCompleteAnalysis (st : AnalyzerState) : List Event :=
  [Event.banner, Event.loadStep] ++
  (if st.data.isEmpty then [Event.noData]
   else
    [Event.columnStats] ++
    (if st.headers.contains "page_id" then [Event.groupReport ["page_id"]] else []) ++
    (if st.headers.contains "page_id" && st.headers.contains "ad_id" then
      [Event.groupReport ["page_id", "ad_id"]] else []) ++
    (match bestCandidate st with
     | some c => [Event.groupReport [c]]
     | none => []) ++
    [Event.completed])

/-! ## The reporting steps as state-passing functions (frame property)

`compute_column_statistics` (source 155-209) and
`perform_groupby_analysis` (source 211-257) read the analyzer state and
print; they are modelled as functions returning the successor state and
the printed report.  Numeric cells were converted in place during
loading; the `isinstance(row[idx], (int, float))` view of a cell is the
parameter `toNum`. -/

/-- One printed line/record of a report, at the level of the values the
source computes. -/
inductive OutLine
  | overview (rows cols numericCount categoricalCount missing : Nat)
  | numericRow (col : String) (present missing : Nat) (stats : FastStats)
  | categoricalRow (col : String) (present missing unique : Nat)
      (top : Option (String × Nat))
  | missingColumns (cols : List String)
  | groupsCreated (n : Nat)
  | groupSizeStats (total : Nat) (stats : FastStats)
  | topGroupLine (rank : Nat) (keyHead : String) (size : Nat)
  | groupNumericLine (groupRank : Nat) (col : String) (stats : FastStats)
deriving Repr

/-- The distinct values of a list in first-appearance order (the keys
of a Python `Counter` built from it). -/
def firstSeen (vals : List String) : List String :=
  removeDuplicates (fun s => s) vals

/-- `Counter(vals).most_common(1)[0]`: a value of maximal multiplicity,
earliest-seen winning ties; `none` on the empty list. -/
def mostCommon (vals : List String) : Option (String × Nat) :=
  (firstSeen vals).foldl (fun acc v =>
    match acc with
    | none => some (v, vals.count v)
    | some (bv, bc) =>
      if vals.count v > bc then some (v, vals.count v) else some (bv, bc)) none

/-- `compute_column_statistics` (source 155-209): dataset overview, one
row per numeric column, one row per first-five categorical column. -/
def computeColumnStatistics (toNum : Cell → Option ℚ) (st : AnalyzerState) :
    AnalyzerState × List OutLine :=
  let missing := (st.data.map (fun r => (r.filter (fun c => c.isNone)).length)).sum
  let overview := OutLine.overview st.data.length st.headers.length
    st.numericCols.length st.categoricalCols.length missing
  let numRows := st.numericCols.map (fun col =>
    let idx := st.headers.indexOf col
    let vals := st.data.filterMap (fun r => toNum (r.getD idx none))
    OutLine.numericRow col vals.length (st.data.length - vals.length) (fastStats vals))
  let catRows := (st.categoricalCols.take 5).map (fun col =>
    let idx := st.headers.indexOf col
    let vals := st.data.filterMap (fun r => r.getD idx none)
    OutLine.categoricalRow col vals.length (st.data.length - vals.length)
      (firstSeen vals).length (mostCommon vals))
  (st, overview :: (numRows ++ catRows))

/-- `perform_groupby_analysis` (source 211-257): missing-column early
return, group construction, size statistics, the top-10 listing and the
numeric statistics of the top-3 groups. -/
def performGroupbyAnalysis (toNum : Cell → Option ℚ) (st : AnalyzerState)
    (cols : List String) : AnalyzerState × List OutLine :=
  let missingCols := cols.filter (fun c => !(st.headers.contains c))
  if !missingCols.isEmpty then (st, [OutLine.missingColumns missingCols])
  else
    let sorted := sortGroupsBySize (fbAdsGroups st.headers cols st.data)
    let sizes := sorted.map (fun g => (g.2.length : ℚ))
    let sizeOut :=
      if sizes.isEmpty then []
      else [OutLine.groupSizeStats sorted.length (fastStats sizes)]
    let tops := (sorted.take 10).enum.map (fun p =>
      OutLine.topGroupLine (p.1 + 1) (p.2.1.headD "") (p.2.2.length))
    let top3 := ((sorted.take 3).enum.map (fun p =>
      (st.numericCols.take 3).filterMap (fun col =>
        let idx := st.headers.indexOf col
        let vals := p.2.2.filterMap (fun r => toNum (r.getD idx none))
        if vals.isEmpty then none
        else some (OutLine.groupNumericLine (p.1 + 1) col (fastStats vals))))).flatten
    (st, OutLine.groupsCreated sorted.length :: (sizeOut ++ tops ++ top3))

/-! ## The top-level exception barrier (all three fb_ads scripts)

The bodies of `run_complete_analysis` are wrapped in
`try: ... except Exception as e: print(...)`.  The fallible steps are
parameters returning `Except String _`; the `try`/`except` is
`catchAll`. -/

/-- `try body except Exception as e: return handler e`. -/
def catchAll (body : Except String α) (handler : String → α) : Except String α :=
  match body with
  | .ok a => .ok a
  | .error e => .ok (handler e)

/-- polars `load_and_clean_data` ends in `except ...: print(...); raise`
(polars_stats.py 115-117): the error is reported and re-raised. -/
def polarsLoad (load : Except String AnalyzerState) :
    Except String AnalyzerState :=
  match load with
  | .ok st => .ok st
  | .error e => .error e

/-- The polars additional-grouping candidates (polars_stats.py 304-317):
distinct count over the full column. -/
def polarsBestCandidate (st : AnalyzerState) : Option String :=
  let candidates := (st.categoricalCols.take 10).filterMap (fun col =>
    if col = "page_id" || col = "ad_id" then none
    else
      let idx := st.headers.indexOf col
      let u := ((st.data.map (fun r => r.getD idx none)).dedup).length
      if 2 ≤ u ∧ u ≤ 20 then some (col, u) else none)
  ((sortBy (fun a b : String × Nat => decide (a.2 ≤ b.2)) candidates).head?).map
    Prod.fst

/-- `run_complete_analysis` of pure_python_stats.py (274-314) with its
fallible steps abstract: the whole body runs under `catchAll`. -/
def purePythonRun (load : Except String AnalyzerState)
    (stats : AnalyzerState → Except String Unit)
    (groupby : AnalyzerState → List String → Except String Unit) :
    Except String (List Event) :=
  catchAll
    (do
      let st ← load
      if st.data.isEmpty then
        return [Event.banner, Event.loadStep, Event.noData]
      let _ ← stats st
      let _ ← (if st.headers.contains "page_id" then groupby st ["page_id"]
               else pure ())
      let _ ← (if st.headers.contains "page_id" && st.headers.contains "ad_id" then
                groupby st ["page_id", "ad_id"]
               else pure ())
      let _ ← (match bestCandidate st with
               | some c => groupby st [c]
               | none => pure ())
      return runCompleteAnalysis st)
    (fun e => [Event.errorPrinted e])

/-- `run_complete_analysis` of pandas_stats.py (256-295), same shape as
the pure-Python one. -/
def pandasRun (load : Except String AnalyzerState)
    (stats : AnalyzerState → Except String Unit)
    (groupby : AnalyzerState → List String → Except String Unit) :
    Except String (List Event) :=
  catchAll
    (do
      let st ← load
      if st.data.isEmpty then
        return [Event.banner, Event.loadStep, Event.noData]
      let _ ← stats st
      let _ ← (if st.headers.contains "page_id" then groupby st ["page_id"]
               else pure ())
      let _ ← (if st.headers.contains "page_id" && st.headers.contains "ad_id" then
                groupby st ["page_id", "ad_id"]
               else pure ())
      let _ ← (match bestCandidate st with
               | some c => groupby st [c]
               | none => pure ())
      return runCompleteAnalysis st)
    (fun e => [Event.errorPrinted e])

/-- `run_complete_analysis` of polars_stats.py (282-326): no empty-data
check; the timed block, the required groupings and the candidate
grouping all run inside the single `try`. -/
def polarsRun (load : Except String AnalyzerState)
    (stats : AnalyzerState → Except String Unit)
    (groupby : AnalyzerState → List String → Except String Unit) :
    Except String (List Event) :=
  catchAll
    (do
      let st ← polarsLoad load
      let _ ← stats st
      let _ ← groupby st ["ad_id"]
      let _ ← (if st.headers.contains "page_id" then groupby st ["page_id"]
               else pure ())
      let _ ← (if st.headers.contains "page_id" && st.headers.contains "ad_id" then
                groupby st ["page_id", "ad_id"]
               else pure ())
      let _ ← (match polarsBestCandidate st with
               | some c => groupby st [c]
               | none => pure ())
      return [Event.completed])
    (fun e => [Event.errorPrinted e])

/-- Whether an `Except` result is a normal return. -/
def exceptOk (x : Except String α) : Bool :=
  match x with
  | .ok _ => true
  | .error _ => false

/-! ## Concrete tables used in counterexamples and witnesses -/

/-- A one-column row. -/
def pageRow (s : String) : Row := [some s]

def c2Headers : List String := ["Facebook_Id"]

/-- Eleven pages: ten with one post each, then `big` with two posts. -/
def c2Data : List Row :=
  [pageRow "p0", pageRow "p1", pageRow "p2", pageRow "p3", pageRow "p4",
   pageRow "p5", pageRow "p6", pageRow "p7", pageRow "p8", pageRow "p9",
   pageRow "big", pageRow "big"]

def c2AllGroups : List (Cell × List Row) :=
  (fbPostsGroupsByFacebookId c2Headers c2Data).getD []

def c2Tops : List (Cell × List Row) :=
  (fbPostsTopPages c2Headers c2Data).getD []

/-- A two-group grouping with the larger group second. -/
def c2WitnessGroups : List (Nat × List Nat) := [(0, [5]), (1, [6, 7])]

/-- One column whose first five values are `1,2,3,4,x`: exactly 80%
parse as numbers. -/
def c1Raw : List Row := [[some "1"], [some "2"], [some "3"], [some "4"], [some "x"]]

/-- Two distinct rows whose `'|'`-joined keys coincide. -/
def c8Row1 : Row := [some "a|b", some "c"]

def c8Row2 : Row := [some "a", some "b|c"]

/-- The empty analyzer state: nothing was loaded. -/
def emptyState : AnalyzerState := ⟨[], [], [], []⟩

theorem dedupAux_sublist (key : α → String) :
    ∀ (rows : List α) (seen : List String), (dedupAux key rows seen).Sublist rows := by
  intro rows
  induction rows with
  | nil => intro seen; simp [dedupAux]
  | cons r rs ih =>
    intro seen
    by_cases h : key r ∈ seen
    · simpa [dedupAux, h] using (ih seen).cons r
    · simpa [dedupAux, h] using (ih (key r :: seen)).cons₂ r

theorem dedupAux_first_occurrence (key : α → String) :
    ∀ (rows : List α) (seen : List String), ∀ r ∈ dedupAux key rows seen,
      key r ∉ seen ∧ rows.find? (fun x => key x == key r) = some r := by
  intro rows
  induction rows with
  | nil => intro seen r hr; simp [dedupAux] at hr
  | cons x xs ih =>
    intro seen r hr
    by_cases h : key x ∈ seen
    · rw [dedupAux, if_pos h] at hr
      obtain ⟨hns, hfind⟩ := ih seen r hr
      have hne : key x ≠ key r := fun he => hns (he ▸ h)
      refine ⟨hns, ?_⟩
      rw [List.find?_cons_of_neg, hfind]
      simpa using hne
    · rw [dedupAux, if_neg h] at hr
      rcases List.mem_cons.mp hr with hr | hr
      · subst hr
        refine ⟨h, ?_⟩
        rw [List.find?_cons_of_pos]
        simp
      · obtain ⟨hns, hfind⟩ := ih (key x :: seen) r hr
        have hne : key x ≠ key r := fun he => hns (by simp [he])
        have hns' : key r ∉ seen := fun hmem => hns (by simp [hmem])
        refine ⟨hns', ?_⟩
        rw [List.find?_cons_of_neg, hfind]
        simpa using hne

theorem removeDuplicates_first_occurrence (key : α → String) (rows : List α) :
    ∀ r ∈ removeDuplicates key rows,
      rows.find? (fun x => key x == key r) = some r := by
  intro r hr
  exact (dedupAux_first_occurrence key rows [] r hr).2

theorem removeDuplicates_pairwise_keys (key : α → String) (rows : List α) :
    (removeDuplicates key rows).Pairwise (fun a b => key a ≠ key b) := by
  have hmem := removeDuplicates_first_occurrence key rows
  have hsub : (removeDuplicates key rows).Sublist rows := dedupAux_sublist key rows []
  -- distinct keys: two members with the same key both equal the unique
  -- first row of `rows` with that key
  have hinj : ∀ a ∈ removeDuplicates key rows, ∀ b ∈ removeDuplicates key rows,
      key a = key b → a = b := by
    intro a ha b hb hk
    have h1 := hmem a ha
    have h2 := hmem b hb
    rw [hk] at h1
    rw [h1] at h2
    exact (Option.some_inj.mp h2)
  -- `removeDuplicates` has no duplicate elements either
  induction rows with
  | nil => simp [removeDuplicates, dedupAux]
  | cons x xs ih =>
    -- restart with a direct induction over the auxiliary function
    clear ih hinj hmem hsub
    suffices h : ∀ (rows : List α) (seen : List String),
        (dedupAux key rows seen).Pairwise (fun a b => key a ≠ key b) by
      exact h (x :: xs) []
    intro rows
    induction rows with
    | nil => intro seen; simp [dedupAux]
    | cons y ys ih =>
      intro seen
      by_cases h : key y ∈ seen
      · rw [dedupAux, if_pos h]; exact ih seen
      · rw [dedupAux, if_neg h]
        refine List.Pairwise.cons ?_ (ih (key y :: seen))
        intro b hb hkey
        have := (dedupAux_first_occurrence key ys (key y :: seen) b hb).1
        exact this (by simp [hkey])

theorem removeDuplicates_nodup (key : α → String) (rows : List α) :
    (removeDuplicates key rows).Nodup := by
  refine (removeDuplicates_pairwise_keys key rows).imp ?_
  intro a b hk he
  exact hk (he ▸ rfl)

theorem removeDuplicates_key_covered (key : α → String) (rows : List α) :
    ∀ r ∈ rows, ∃ r' ∈ removeDuplicates key rows, key r' = key r := by
  suffices h : ∀ (rows : List α) (seen : List String), ∀ r ∈ rows,
      key r ∈ seen ∨ ∃ r' ∈ dedupAux key rows seen, key r' = key r by
    intro r hr
    rcases h rows [] r hr with hc | hc
    · simp at hc
    · exact hc
  intro l
  induction l with
  | nil => intro seen r hr; simp at hr
  | cons x xs ih =>
    intro seen r hr
    by_cases h : key x ∈ seen
    · rw [dedupAux, if_pos h]
      rcases List.mem_cons.mp hr with hr | hr
      · subst hr; exact Or.inl h
      · exact ih seen r hr
    · rw [dedupAux, if_neg h]
      rcases List.mem_cons.mp hr with hr | hr
      · subst hr
        exact Or.inr ⟨r, by simp⟩
      · rcases ih (key x :: seen) r hr with hc | hc
        · rcases List.mem_cons.mp hc with hc | hc
          · exact Or.inr ⟨x, by simp, hc.symm⟩
          · exact Or.inl hc
        · obtain ⟨r', hr', hk⟩ := hc
          exact Or.inr ⟨r', by simp [hr'], hk⟩

theorem sizesSum_insertGroup [DecidableEq κ] (k : κ) (r : α) :
    ∀ gs : List (κ × List α), sizesSum (insertGroup k r gs) = sizesSum gs + 1 := by
  intro gs
  induction gs with
  | nil => simp [insertGroup, sizesSum]
  | cons g gs ih =>
    obtain ⟨k', rs⟩ := g
    by_cases h : k = k'
    · simp [insertGroup, h, sizesSum]
      omega
    · simp [insertGroup, h, sizesSum] at ih ⊢
      omega

theorem sizesSum_groupByKey [DecidableEq κ] (key : α → κ) (rows : List α) :
    sizesSum (groupByKey key rows) = rows.length := by
  suffices h : ∀ (rows : List α) (gs : List (κ × List α)),
      sizesSum (rows.foldl (fun gs r => insertGroup (key r) r gs) gs) =
        sizesSum gs + rows.length by
    simpa [groupByKey, sizesSum] using h rows []
  intro rows
  induction rows with
  | nil => intro gs; simp
  | cons r rs ih =>
    intro gs
    simp only [List.foldl_cons, List.length_cons]
    rw [ih, sizesSum_insertGroup]
    omega

theorem groupsKeyed_insertGroup [DecidableEq κ] (key : α → κ) (r : α)
    (gs : List (κ × List α)) (hg : GroupsKeyed key gs) :
    GroupsKeyed key (insertGroup (key r) r gs) := by
  induction gs with
  | nil =>
    intro g hgmem x hx
    simp [insertGroup] at hgmem
    subst hgmem
    simp at hx
    simp [hx]
  | cons g0 gs ih =>
    obtain ⟨k', rs⟩ := g0
    have hg0 : ∀ x ∈ rs, key x = k' := fun x hx => hg (k', rs) (by simp) x hx
    have hgs : GroupsKeyed key gs := fun g hgmem x hx => hg g (by simp [hgmem]) x hx
    by_cases h : key r = k'
    · intro g hgmem x hx
      rw [insertGroup, if_pos h] at hgmem
      rcases List.mem_cons.mp hgmem with hgmem | hgmem
      · subst hgmem
        simp at hx
        rcases hx with hx | hx
        · exact hg0 x hx
        · subst hx; exact h
      · exact hgs g hgmem x hx
    · intro g hgmem x hx
      rw [insertGroup, if_neg h] at hgmem
      rcases List.mem_cons.mp hgmem with hgmem | hgmem
      · subst hgmem
        exact hg0 x hx
      · exact ih hgs g hgmem x hx

theorem groupsKeyed_groupByKey [DecidableEq κ] (key : α → κ) (rows : List α) :
    GroupsKeyed key (groupByKey key rows) := by
  suffices h : ∀ (rows : List α) (gs : List (κ × List α)), GroupsKeyed key gs →
      GroupsKeyed key (rows.foldl (fun gs r => insertGroup (key r) r gs) gs) by
    exact h rows [] (by intro g hg; simp at hg)
  intro rows
  induction rows with
  | nil => intro gs hg; simpa using hg
  | cons r rs ih =>
    intro gs hg
    simp only [List.foldl_cons]
    exact ih _ (groupsKeyed_insertGroup key r gs hg)

theorem groupKeys_insertGroup [DecidableEq κ] (k : κ) (r : α) :
    ∀ gs : List (κ × List α),
      (k ∈ groupKeys gs ∧ groupKeys (insertGroup k r gs) = groupKeys gs) ∨
      (k ∉ groupKeys gs ∧ groupKeys (insertGroup k r gs) = groupKeys gs ++ [k]) := by
  intro gs
  induction gs with
  | nil => right; simp [insertGroup, groupKeys]
  | cons g gs ih =>
    obtain ⟨k', rs⟩ := g
    by_cases h : k = k'
    · left
      constructor
      · simp [groupKeys, h]
      · simp [insertGroup, h, groupKeys]
    · rcases ih with ⟨hmem, heq⟩ | ⟨hmem, heq⟩
      · left
        refine ⟨by simp [groupKeys] at hmem ⊢; exact Or.inr hmem, ?_⟩
        simp [insertGroup, h, groupKeys] at heq ⊢
        exact heq
      · right
        refine ⟨?_, ?_⟩
        · intro hin
          simp only [groupKeys, List.map_cons] at hin
          rcases List.mem_cons.mp hin with h1 | h1
          · exact h h1
          · exact hmem h1
        · simp [insertGroup, h, groupKeys] at heq ⊢
          exact heq

theorem groupKeys_nodup_groupByKey [DecidableEq κ] (key : α → κ)
    (rows : List α) : (groupKeys (groupByKey key rows)).Nodup := by
  suffices h : ∀ (rows : List α) (gs : List (κ × List α)),
      (groupKeys gs).Nodup →
      (groupKeys (rows.foldl (fun gs r => insertGroup (key r) r gs) gs)).Nodup by
    exact h rows [] (by simp [groupKeys])
  intro rows
  induction rows with
  | nil => intro gs hg; simpa using hg
  | cons r rs ih =>
    intro gs hg
    simp only [List.foldl_cons]
    refine ih _ ?_
    rcases groupKeys_insertGroup (key r) r gs with ⟨_, heq⟩ | ⟨hmem, heq⟩
    · rw [heq]; exact hg
    · rw [heq]
      rw [List.nodup_append]
      refine ⟨hg, List.nodup_singleton _, ?_⟩
      intro a ha hb
      simp at hb
      subst hb
      exact hmem ha

theorem insertSorted_perm (le : α → α → Bool) (x : α) :
    ∀ l : List α, (insertSorted le x l).Perm (x :: l) := by
  intro l
  induction l with
  | nil => simp [insertSorted]
  | cons y ys ih =>
    by_cases h : le x y
    · simp [insertSorted, h]
    · rw [insertSorted, if_neg h]
      exact (ih.cons y).trans (List.Perm.swap x y ys)

theorem sortBy_perm (le : α → α → Bool) :
    ∀ l : List α, (sortBy le l).Perm l := by
  intro l
  induction l with
  | nil => simp [sortBy]
  | cons x xs ih =>
    exact (insertSorted_perm le x (sortBy le xs)).trans (ih.cons x)

theorem insertSorted_pairwise (le : α → α → Bool)
    (htrans : ∀ a b c, le a b = true → le b c = true → le a c = true)
    (htotal : ∀ a b, le a b = true ∨ le b a = true) (x : α) :
    ∀ l : List α, l.Pairwise (fun a b => le a b = true) →
      (insertSorted le x l).Pairwise (fun a b => le a b = true) := by
  intro l
  induction l with
  | nil => intro _; simp [insertSorted]
  | cons y ys ih =>
    intro hp
    obtain ⟨hy, hys⟩ := List.pairwise_cons.mp hp
    by_cases h : le x y
    · rw [insertSorted, if_pos h]
      refine List.pairwise_cons.mpr ⟨?_, hp⟩
      intro b hb
      rcases List.mem_cons.mp hb with hb | hb
      · subst hb; exact h
      · exact htrans x y b h (hy b hb)
    · rw [insertSorted, if_neg h]
      refine List.pairwise_cons.mpr ⟨?_, ih hys⟩
      intro b hb
      have hperm := insertSorted_perm le x ys
      have hb' : b ∈ x :: ys := hperm.subset hb
      rcases List.mem_cons.mp hb' with hb' | hb'
      · subst hb'
        rcases htotal y b with hc | hc
        · exact hc
        · exact absurd hc h
      · exact hy b hb'

theorem sortBy_pairwise (le : α → α → Bool)
    (htrans : ∀ a b c, le a b = true → le b c = true → le a c = true)
    (htotal : ∀ a b, le a b = true ∨ le b a = true) :
    ∀ l : List α, (sortBy le l).Pairwise (fun a b => le a b = true) := by
  intro l
  induction l with
  | nil => simp [sortBy]
  | cons x xs ih => exact insertSorted_pairwise le htrans htotal x _ ih

theorem sortGroupsBySize_perm (gs : List (κ × List α)) :
    (sortGroupsBySize gs).Perm gs :=
  sortBy_perm _ gs

theorem sortGroupsBySize_pairwise (gs : List (κ × List α)) :
    (sortGroupsBySize gs).Pairwise (fun a b => b.2.length ≤ a.2.length) := by
  have h := sortBy_pairwise (fun a b : κ × List α => decide (b.2.length ≤ a.2.length))
    (fun a b c hab hbc =>
      decide_eq_true (Nat.le_trans (of_decide_eq_true hbc) (of_decide_eq_true hab)))
    (fun a b => by
      rcases Nat.le_total b.2.length a.2.length with hc | hc
      · exact Or.inl (decide_eq_true hc)
      · exact Or.inr (decide_eq_true hc))
    gs
  exact h.imp (fun hd => of_decide_eq_true hd)

/-! ## Claim theorems -/

/-- **C10.** Delimiter auto-detection depends only on the first line of
the input file: the delimiter is tab iff the first line contains
strictly more tab characters than commas, and comma otherwise,
identically in all three fb_ads implementations. -/
theorem fbads_delimiter_detection (l : String) :
    detectDelimPurePython l = detectDelimPandas l ∧
    detectDelimPandas l = detectDelimPolars l ∧
    (detectDelimPurePython l = '\t' ↔ countChar ',' l < countChar '\t' l) ∧
    (¬ countChar ',' l < countChar '\t' l → detectDelimPurePython l = ',') ∧
    ∀ f g : List String, fileFirstLine f = fileFirstLine g →
      fileDelimPurePython f = fileDelimPurePython g := by
  refine ⟨rfl, rfl, ?_, ?_, ?_⟩
  · unfold detectDelimPurePython
    by_cases h : countChar '\t' l > countChar ',' l
    · rw [if_pos h]
      simp [h]
    · rw [if_neg h]
      constructor
      · intro he
        exact absurd he (by decide)
      · intro hlt
        exact absurd hlt h
  · intro h
    unfold detectDelimPurePython
    rw [if_neg h]
  · intro f g hfg
    unfold fileDelimPurePython
    rw [hfg]

/-- Witness for C10 at concrete files sharing a first line. -/
theorem fbads_delimiter_detection_witness :
    fileFirstLine ["a,b"] = fileFirstLine ["a,b", "c\td"] ∧
    fileDelimPurePython ["a,b"] = fileDelimPurePython ["a,b", "c\td"] :=
  ⟨rfl, (fbads_delimiter_detection "").2.2.2.2 ["a,b"] ["a,b", "c\td"] rfl⟩

/-- **C9.** `run_complete_analysis` of each fb_ads analyzer never
propagates an exception: whatever errors the loading, statistics or
group-analysis steps raise, the run returns normally (the whole body
sits under the `try`/`except` barrier). -/
theorem fbads_run_never_throws (load : Except String AnalyzerState)
    (stats : AnalyzerState → Except String Unit)
    (groupby : AnalyzerState → List String → Except String Unit) :
    exceptOk (purePythonRun load stats groupby) = true ∧
    exceptOk (pandasRun load stats groupby) = true ∧
    exceptOk (polarsRun load stats groupby) = true := by
  have hc : ∀ (b : Except String (List Event)) (h : String → List Event),
      exceptOk (catchAll b h) = true := by
    intro b h
    cases b <;> rfl
  exact ⟨hc _ _, hc _ _, hc _ _⟩

/-- **C7.** After loading, the reporting steps are read-only: both
`compute_column_statistics` and `perform_groupby_analysis` leave the
in-memory table, the header list and the column classification — the
whole analyzer state — unchanged. -/
theorem fbads_reporting_steps_read_only (toNum : Cell → Option ℚ)
    (st : AnalyzerState) (cols : List String) :
    (computeColumnStatistics toNum st).1 = st ∧
    (performGroupbyAnalysis toNum st cols).1 = st := by
  constructor
  · rfl
  · unfold performGroupbyAnalysis
    dsimp only
    split <;> rfl

/-- **C8 (amended).** Duplicate removal keeps the first row of each
distinct `'|'`-joined key, in original order: the result is a
subsequence of the input with pairwise-distinct keys (hence no two
identical rows), every kept row is the first input row with its key,
every input row's key is represented, and no rows are added.  (Because
two distinct rows can share a key, not every distinct row survives —
see the counterexample.) -/
theorem fbads_dedup_properties (rows : List Row) :
    (removeDuplicates rowKey rows).Sublist rows ∧
    (removeDuplicates rowKey rows).Pairwise (fun a b => rowKey a ≠ rowKey b) ∧
    (removeDuplicates rowKey rows).Nodup ∧
    (∀ r ∈ removeDuplicates rowKey rows,
      rows.find? (fun x => rowKey x == rowKey r) = some r) ∧
    (∀ r ∈ rows, ∃ r' ∈ removeDuplicates rowKey rows, rowKey r' = rowKey r) ∧
    (removeDuplicates rowKey rows).length ≤ rows.length :=
  ⟨dedupAux_sublist rowKey rows [],
   removeDuplicates_pairwise_keys rowKey rows,
   removeDuplicates_nodup rowKey rows,
   removeDuplicates_first_occurrence rowKey rows,
   removeDuplicates_key_covered rowKey rows,
   (dedupAux_sublist rowKey rows []).length_le⟩

/-- Witness for C8 at a concrete table. -/
theorem fbads_dedup_properties_witness :
    c8Row1 ∈ removeDuplicates rowKey [c8Row1, c8Row2] ∧
    [c8Row1, c8Row2].find? (fun x => rowKey x == rowKey c8Row1) = some c8Row1 :=
  ⟨by decide, (fbads_dedup_properties [c8Row1, c8Row2]).2.2.2.1 c8Row1 (by decide)⟩

/-- **C8 counterexample.** The `'|'`-join key collides on two distinct
rows: `["a|b", "c"]` and `["a", "b|c"]` share the key `"a|b|c"`, so the
second, non-duplicate row is dropped — duplicate removal does not keep
the first occurrence of *every* row. -/
theorem fbads_dedup_drops_distinct_row :
    c8Row1 ≠ c8Row2 ∧
    rowKey c8Row1 = rowKey c8Row2 ∧
    removeDuplicates rowKey [c8Row1, c8Row2] = [c8Row1] ∧
    c8Row2 ∉ removeDuplicates rowKey [c8Row1, c8Row2] := by
  refine ⟨by decide, by decide, by decide, by decide⟩

/-- **C5.** When every grouping column exists in the headers, the
group-by step runs (no missing-column early return) and partitions the
rows: every row stored under a group has that group's key, the group
keys are pairwise distinct (each row lands in exactly one group), and
the group sizes sum to the number of rows. -/
theorem fbads_groupby_partitions (headers cols : List String) (data : List Row)
    (h : ∀ c ∈ cols, c ∈ headers) :
    performGroupby headers cols data = some (fbAdsGroups headers cols data) ∧
    (∀ g ∈ fbAdsGroups headers cols data, ∀ r ∈ g.2,
      fbAdsGroupKey headers cols r = g.1) ∧
    (groupKeys (fbAdsGroups headers cols data)).Nodup ∧
    sizesSum (fbAdsGroups headers cols data) = data.length := by
  refine ⟨?_, groupsKeyed_groupByKey _ _, groupKeys_nodup_groupByKey _ _,
    sizesSum_groupByKey _ _⟩
  have hfil : cols.filter (fun c => !(headers.contains c)) = [] := by
    rw [List.filter_eq_nil_iff]
    intro c hc
    simp [h c hc]
  simp only [performGroupby, hfil, List.isEmpty_nil, if_true]

/-- Witness for C5 at a concrete table. -/
theorem fbads_groupby_partitions_witness :
    (∀ c ∈ ["page_id"], c ∈ ["page_id", "ad_id"]) ∧
    sizesSum (fbAdsGroups ["page_id", "ad_id"] ["page_id"]
      [[some "1", some "a"], [some "1", some "b"], [some "2", some "c"]]) = 3 :=
  ⟨by decide,
   (fbads_groupby_partitions ["page_id", "ad_id"] ["page_id"]
     [[some "1", some "a"], [some "1", some "b"], [some "2", some "c"]]
     (by decide)).2.2.2⟩

/-- **C2 (amended).** In the fb_ads scripts' `perform_groupby_analysis`
the printed top-`n` groups are the `n` largest groups, listed in
non-increasing order of size: the sorted group list is a permutation of
the grouping, is non-increasing in size, and every taken group is at
least as large as every group left out.  (The fb_posts
`analyze_by_facebook_id` and tw_posts `group_numeric_stats` reports
instead take the first ten groups in first-appearance order — see the
counterexample.) -/
theorem fbads_top_groups_are_largest {κ α : Type} (gs : List (κ × List α))
    (n : Nat) :
    (sortGroupsBySize gs).Perm gs ∧
    (sortGroupsBySize gs).Pairwise (fun a b => b.2.length ≤ a.2.length) ∧
    (topGroups n gs).Pairwise (fun a b => b.2.length ≤ a.2.length) ∧
    ∀ g ∈ topGroups n gs, ∀ g' ∈ (sortGroupsBySize gs).drop n,
      g'.2.length ≤ g.2.length := by
  refine ⟨sortGroupsBySize_perm gs, sortGroupsBySize_pairwise gs, ?_, ?_⟩
  · exact (sortGroupsBySize_pairwise gs).sublist (List.take_sublist n _)
  · intro g hg g' hg'
    have hp := sortGroupsBySize_pairwise gs
    rw [← List.take_append_drop n (sortGroupsBySize gs)] at hp
    exact (List.pairwise_append.mp hp).2.2 g hg g' hg'

/-- Witness for C2 at a concrete grouping. -/
theorem fbads_top_groups_are_largest_witness :
    ((1, [6, 7]) ∈ topGroups 1 c2WitnessGroups) ∧
    ((0, [5]) ∈ (sortGroupsBySize c2WitnessGroups).drop 1) ∧
    ((0, [5]) : Nat × List Nat).2.length ≤ ((1, [6, 7]) : Nat × List Nat).2.length :=
  ⟨by decide, by decide,
   (fbads_top_groups_are_largest c2WitnessGroups 1).2.2.2
     (1, [6, 7]) (by decide) (0, [5]) (by decide)⟩

/-- **C2 counterexample.** The fb_posts "Top 10 Pages" report prints
`list(groups.items())[:10]` — the first ten groups in first-appearance
order, not the ten largest: on a table with ten singleton pages
followed by a two-post page, the largest group is excluded from the
printed ten, all of which are smaller. -/
theorem fbposts_top_pages_not_largest :
    (fbPostsTopPages c2Headers c2Data).isSome = true ∧
    ((some "big", [pageRow "big", pageRow "big"]) ∈ c2AllGroups) ∧
    ((some "big", [pageRow "big", pageRow "big"]) ∉ c2Tops) ∧
    c2Tops.map (fun g => g.2.length) = [1, 1, 1, 1, 1, 1, 1, 1, 1, 1] := by
  refine ⟨by decide, by decide, by decide, by decide⟩

/-- **C6.** `run_complete_analysis` executes its steps in a fixed
order: the trace begins with the banner and the loading step; when
loading leaves the table empty the run prints "No data loaded!" and
ends with nothing else; otherwise the column statistics come next, then
only group-by reports, and the run ends with the completion banner. -/
theorem fbads_run_order (st : AnalyzerState) :
    (runCompleteAnalysis st).take 2 = [Event.banner, Event.loadStep] ∧
    (st.data = [] →
      runCompleteAnalysis st = [Event.banner, Event.loadStep, Event.noData]) ∧
    (st.data ≠ [] → ∃ gs, runCompleteAnalysis st =
        [Event.banner, Event.loadStep, Event.columnStats] ++ gs ++ [Event.completed] ∧
        ∀ e ∈ gs, ∃ cols, e = Event.groupReport cols) := by
  refine ⟨?_, ?_, ?_⟩
  · unfold runCompleteAnalysis
    by_cases h : st.data.isEmpty <;> simp [h]
  · intro h
    have he : st.data.isEmpty = true := by simp [h]
    unfold runCompleteAnalysis
    rw [he]
    rfl
  · intro h
    have he : st.data.isEmpty = false := by
      cases hd : st.data with
      | nil => exact absurd hd h
      | cons a l => rfl
    refine ⟨(if st.headers.contains "page_id" then [Event.groupReport ["page_id"]] else []) ++
        ((if st.headers.contains "page_id" && st.headers.contains "ad_id" then
          [Event.groupReport ["page_id", "ad_id"]] else []) ++
        (match bestCandidate st with
         | some c => [Event.groupReport [c]]
         | none => [])), ?_, ?_⟩
    · unfold runCompleteAnalysis
      rw [he]
      simp
    · intro e hemem
      rcases List.mem_append.mp hemem with hmem | hmem
      · cases hb : st.headers.contains "page_id" <;> rw [hb] at hmem <;> simp at hmem
        exact ⟨["page_id"], hmem⟩
      · rcases List.mem_append.mp hmem with hmem | hmem
        · cases hb : (st.headers.contains "page_id" && st.headers.contains "ad_id") <;>
            rw [hb] at hmem <;> simp at hmem
          exact ⟨["page_id", "ad_id"], hmem⟩
        · cases hbc : bestCandidate st with
          | some c =>
            rw [hbc] at hmem
            simp at hmem
            exact ⟨[c], hmem⟩
          | none =>
            rw [hbc] at hmem
            simp at hmem

/-- Witness for C6 at the empty and a non-empty state. -/
theorem fbads_run_order_witness :
    emptyState.data = [] ∧
    runCompleteAnalysis emptyState = [Event.banner, Event.loadStep, Event.noData] :=
  ⟨rfl, (fbads_run_order emptyState).2.1 rfl⟩

theorem classifyFrom_append_perm (parses : String → Bool) (raw : List Row) :
    ∀ (hs : List String) (i : Nat),
      ((classifyFrom parses raw hs i).1 ++ (classifyFrom parses raw hs i).2).Perm hs := by
  intro hs
  induction hs with
  | nil => intro i; simp [classifyFrom]
  | cons h hs ih =>
    intro i
    by_cases hn : isNumericColumn parses raw i h
    · simp only [classifyFrom, hn, if_true]
      exact (ih (i + 1)).cons h
    · simp only [classifyFrom, hn, if_false, Bool.false_eq_true]
      exact List.perm_middle.trans ((ih (i + 1)).cons h)

theorem classifyFrom_mem_numeric (parses : String → Bool) (raw : List Row) :
    ∀ (hs : List String) (i j : Nat) (hj : j < hs.length), hs.Nodup →
      (hs.get ⟨j, hj⟩ ∈ (classifyFrom parses raw hs i).1 ↔
        isNumericColumn parses raw (i + j) (hs.get ⟨j, hj⟩) = true) := by
  intro hs
  induction hs with
  | nil => intro i j hj; simp at hj
  | cons h hs ih =>
    intro i j hj hnd
    obtain ⟨hm, hnd'⟩ := List.nodup_cons.mp hnd
    cases j with
    | zero =>
      show h ∈ (classifyFrom parses raw (h :: hs) i).1 ↔
        isNumericColumn parses raw (i + 0) h = true
      rw [Nat.add_zero]
      by_cases hn : isNumericColumn parses raw i h
      · simp [classifyFrom, hn]
      · simp only [classifyFrom, hn, if_false, Bool.false_eq_true]
        constructor
        · intro hmem
          exfalso
          exact hm ((classifyFrom_append_perm parses raw hs (i + 1)).subset
            (List.mem_append.mpr (Or.inl hmem)))
        · intro hcond
          exact hcond.elim
    | succ j =>
      have hj' : j < hs.length := by simpa using hj
      show hs.get ⟨j, hj'⟩ ∈ (classifyFrom parses raw (h :: hs) i).1 ↔
        isNumericColumn parses raw (i + (j + 1)) (hs.get ⟨j, hj'⟩) = true
      have hget : hs.get ⟨j, hj'⟩ ∈ hs := List.get_mem hs j hj'
      have hne : hs.get ⟨j, hj'⟩ ≠ h := fun hee => hm (hee ▸ hget)
      have harith : i + 1 + j = i + (j + 1) := by omega
      by_cases hn : isNumericColumn parses raw i h
      · simp only [classifyFrom, hn, if_true, List.mem_cons]
        constructor
        · intro hmem
          rcases hmem with hmem | hmem
          · exact absurd hmem hne
          · rw [← harith]
            exact (ih (i + 1) j hj' hnd').mp hmem
        · intro hcond
          right
          rw [← harith] at hcond
          exact (ih (i + 1) j hj' hnd').mpr hcond
      · simp only [classifyFrom, hn, if_false, Bool.false_eq_true]
        rw [← harith]
        exact ih (i + 1) j hj' hnd'

theorem isNumericColumn_iff (parses : String → Bool) (raw : List Row) (i : Nat)
    (header : String) (hc : header ∉ complexFields) :
    isNumericColumn parses raw i header = true ↔
      colSample raw i ≠ [] ∧
      5 * numericSampleCount parses (colSample raw i) ≥
        4 * ((colSample raw i).take 100).length := by
  unfold isNumericColumn
  rw [if_neg hc]
  by_cases he : (colSample raw i).isEmpty
  · have : colSample raw i = [] := by simpa [List.isEmpty_iff] using he
    simp [he, this]
  · have hne : colSample raw i ≠ [] := by simpa [List.isEmpty_iff] using he
    simp [he, hne, ge_iff_le]

/-- **C3.** In the pure-Python fb_ads analyzer, column types are
inferred from a sample: the numeric and categorical lists together are
exactly the headers, each header lands in exactly one of them, and a
non-complex column is classified numeric iff its sample of non-null
values from the first up-to-1000 rows is non-empty and at least 80% of
the first up-to-100 of them parse as floats. -/
theorem fbads_type_sniffing (parses : String → Bool) (raw : List Row)
    (headers : List String) (hnd : headers.Nodup) :
    ((classifyHeaders parses raw headers).1 ++
      (classifyHeaders parses raw headers).2).Perm headers ∧
    (∀ x ∈ headers,
      (x ∈ (classifyHeaders parses raw headers).1 ∧
        x ∉ (classifyHeaders parses raw headers).2) ∨
      (x ∈ (classifyHeaders parses raw headers).2 ∧
        x ∉ (classifyHeaders parses raw headers).1)) ∧
    (∀ j (hj : j < headers.length), headers.get ⟨j, hj⟩ ∉ complexFields →
      (headers.get ⟨j, hj⟩ ∈ (classifyHeaders parses raw headers).1 ↔
        colSample raw j ≠ [] ∧
        5 * numericSampleCount parses (colSample raw j) ≥
          4 * ((colSample raw j).take 100).length)) := by
  have hperm := classifyFrom_append_perm parses raw headers 0
  refine ⟨hperm, ?_, ?_⟩
  · intro x hx
    have hnd2 : ((classifyHeaders parses raw headers).1 ++
        (classifyHeaders parses raw headers).2).Nodup := hperm.nodup_iff.mpr hnd
    have hx2 : x ∈ (classifyHeaders parses raw headers).1 ++
        (classifyHeaders parses raw headers).2 := hperm.symm.subset hx
    rcases List.mem_append.mp hx2 with hx2 | hx2
    · left
      refine ⟨hx2, ?_⟩
      intro hx3
      exact (List.disjoint_of_nodup_append hnd2) hx2 hx3
    · right
      refine ⟨hx2, ?_⟩
      intro hx3
      exact (List.disjoint_of_nodup_append hnd2) hx3 hx2
  · intro j hj hc
    rw [show (classifyHeaders parses raw headers).1 =
      (classifyFrom parses raw headers 0).1 from rfl]
    rw [classifyFrom_mem_numeric parses raw headers 0 j hj hnd]
    rw [show (0 : Nat) + j = j by omega]
    exact isNumericColumn_iff parses raw j _ hc

/-- Witness for C3 at a concrete table. -/
theorem fbads_type_sniffing_witness :
    (["a", "b"] : List String).Nodup ∧
    ((classifyHeaders digitsParse [[some "7", some "x"]] ["a", "b"]).1 ++
      (classifyHeaders digitsParse [[some "7", some "x"]] ["a", "b"]).2).Perm
      ["a", "b"] :=
  ⟨by decide,
   (fbads_type_sniffing digitsParse [[some "7", some "x"]] ["a", "b"] (by decide)).1⟩

theorem sampleRows_eq_take (raw : List Row) :
    sampleRows raw = raw.take (min 1000 raw.length) := by
  unfold sampleRows
  by_cases h : raw.length > 1000
  · rw [if_pos h]
  · rw [if_neg h]
    have hmin : min 1000 raw.length = raw.length := by omega
    rw [hmin, List.take_length]

theorem pandas_sample_eq_colSample (raw : List Row) (i : Nat) :
    (raw.take (min 1000 raw.length)).filterMap (fun r => r.getD i none) =
      colSample raw i := by
  unfold colSample
  rw [sampleRows_eq_take]

/-- **C1 (amended).** The pure-Python and pandas fb_ads analyzers need
not classify the same columns (see the counterexample); they do agree
whenever a non-complex column's sample is all-parsing (both numeric) or
parses below the 80% threshold (both categorical), and both send
complex fields to categorical.  The pure-Python threshold is 80% of the
first up-to-100 sampled values; pandas requires all of them to parse. -/
theorem fbads_pure_pandas_classification_agreement (parses : String → Bool)
    (raw : List Row) (i : Nat) (header : String) :
    (header ∈ complexFields →
      isNumericColumn parses raw i header = false ∧
      pandasIsNumericColumn parses raw i header = false) ∧
    (header ∉ complexFields → colSample raw i ≠ [] →
      (((colSample raw i).take 100).all parses = true →
        isNumericColumn parses raw i header = true ∧
        pandasIsNumericColumn parses raw i header = true) ∧
      (5 * numericSampleCount parses (colSample raw i) <
          4 * ((colSample raw i).take 100).length →
        isNumericColumn parses raw i header = false ∧
        pandasIsNumericColumn parses raw i header = false)) := by
  constructor
  · intro hc
    constructor
    · unfold isNumericColumn
      rw [if_pos hc]
    · unfold pandasIsNumericColumn
      rw [if_pos hc]
  · intro hc hne
    have hemp : (colSample raw i).isEmpty = false := by
      cases hd : colSample raw i with
      | nil => exact absurd hd hne
      | cons a l => rfl
    have hlen : 0 < ((colSample raw i).take 100).length := by
      cases hd : colSample raw i with
      | nil => exact absurd hd hne
      | cons a l => simp [hd]
    constructor
    · intro hall
      have hcount : numericSampleCount parses (colSample raw i) =
          ((colSample raw i).take 100).length := by
        unfold numericSampleCount
        rw [List.filter_eq_self.mpr]
        intro a ha
        exact List.all_eq_true.mp hall a ha
      constructor
      · unfold isNumericColumn
        rw [if_neg hc]
        simp only [hemp, Bool.false_eq_true, if_false, hcount]
        simp only [decide_eq_true_eq]
        omega
      · unfold pandasIsNumericColumn
        rw [if_neg hc]
        rw [pandas_sample_eq_colSample]
        simp only [hemp, Bool.false_eq_true, if_false]
        exact hall
    · intro hlt
      constructor
      · unfold isNumericColumn
        rw [if_neg hc]
        simp only [hemp, Bool.false_eq_true, if_false]
        rw [decide_eq_false_iff_not]
        omega
      · unfold pandasIsNumericColumn
        rw [if_neg hc]
        rw [pandas_sample_eq_colSample]
        simp only [hemp, Bool.false_eq_true, if_false]
        rw [Bool.eq_false_iff]
        intro hall
        have hcount : numericSampleCount parses (colSample raw i) =
            ((colSample raw i).take 100).length := by
          unfold numericSampleCount
          rw [List.filter_eq_self.mpr]
          intro a ha
          exact List.all_eq_true.mp hall a ha
        omega

/-- Witness for C1 at a concrete all-numeric column. -/
theorem fbads_pure_pandas_classification_agreement_witness :
    ("a" ∉ complexFields) ∧ (colSample [[some "7"]] 0 ≠ []) ∧
    isNumericColumn digitsParse [[some "7"]] 0 "a" = true ∧
    pandasIsNumericColumn digitsParse [[some "7"]] 0 "a" = true :=
  ⟨by decide, by decide,
   ((fbads_pure_pandas_classification_agreement digitsParse [[some "7"]] 0 "a").2
     (by decide) (by decide)).1 (by decide)⟩

/-- **C1 counterexample.** On a column whose first five values are
`1,2,3,4,x` exactly 80% of the sample parses: the pure-Python analyzer
(threshold `>= 0.8`) classifies it numeric while pandas
(`pd.to_numeric(..., errors='raise')`, needing every sampled value to
parse) classifies it categorical — the implementations do not classify
the same set of columns. -/
theorem fbads_implementations_disagree :
    isNumericColumn digitsParse c1Raw 0 "a" = true ∧
    pandasIsNumericColumn digitsParse c1Raw 0 "a" = false ∧
    isNumericColumn digitsParse c1Raw 0 "a" ≠
      pandasIsNumericColumn digitsParse c1Raw 0 "a" := by
  refine ⟨by decide, by decide, by decide⟩

theorem foldl_min_mem : ∀ (rest : List ℚ) (v : ℚ), rest.foldl min v ∈ v :: rest := by
  intro rest
  induction rest with
  | nil => intro v; simp
  | cons h t ih =>
    intro v
    have hmem := ih (min v h)
    show List.foldl min (min v h) t ∈ v :: h :: t
    rcases List.mem_cons.mp hmem with hm | hm
    · rw [hm]
      rcases min_choice v h with hc | hc <;> rw [hc]
      · exact List.mem_cons_self v _
      · exact List.mem_cons.mpr (Or.inr (List.mem_cons_self h t))
    · exact List.mem_cons.mpr (Or.inr (List.mem_cons.mpr (Or.inr hm)))

theorem foldl_min_le : ∀ (rest : List ℚ) (v : ℚ),
    rest.foldl min v ≤ v ∧ ∀ x ∈ rest, rest.foldl min v ≤ x := by
  intro rest
  induction rest with
  | nil => intro v; simp
  | cons h t ih =>
    intro v
    obtain ⟨hle, hall⟩ := ih (min v h)
    refine ⟨le_trans hle (min_le_left v h), ?_⟩
    intro x hx
    rcases List.mem_cons.mp hx with hx | hx
    · rw [hx]
      exact le_trans hle (min_le_right v h)
    · exact hall x hx

theorem foldl_max_mem : ∀ (rest : List ℚ) (v : ℚ), rest.foldl max v ∈ v :: rest := by
  intro rest
  induction rest with
  | nil => intro v; simp
  | cons h t ih =>
    intro v
    have hmem := ih (max v h)
    show List.foldl max (max v h) t ∈ v :: h :: t
    rcases List.mem_cons.mp hmem with hm | hm
    · rw [hm]
      rcases max_choice v h with hc | hc <;> rw [hc]
      · exact List.mem_cons_self v _
      · exact List.mem_cons.mpr (Or.inr (List.mem_cons_self h t))
    · exact List.mem_cons.mpr (Or.inr (List.mem_cons.mpr (Or.inr hm)))

theorem foldl_max_ge : ∀ (rest : List ℚ) (v : ℚ),
    v ≤ rest.foldl max v ∧ ∀ x ∈ rest, x ≤ rest.foldl max v := by
  intro rest
  induction rest with
  | nil => intro v; simp
  | cons h t ih =>
    intro v
    obtain ⟨hle, hall⟩ := ih (max v h)
    refine ⟨le_trans (le_max_left v h) hle, ?_⟩
    intro x hx
    rcases List.mem_cons.mp hx with hx | hx
    · rw [hx]
      exact le_trans (le_max_right v h) hle
    · exact hall x hx

theorem pySorted_perm (vals : List ℚ) : (pySorted vals).Perm vals :=
  sortBy_perm _ vals

theorem pySorted_sorted (vals : List ℚ) : (pySorted vals).Sorted (· ≤ ·) := by
  have h := sortBy_pairwise (fun a b : ℚ => decide (a ≤ b))
    (fun a b c hab hbc =>
      decide_eq_true (le_trans (of_decide_eq_true hab) (of_decide_eq_true hbc)))
    (fun a b => by
      rcases le_total a b with hc | hc
      · exact Or.inl (decide_eq_true hc)
      · exact Or.inr (decide_eq_true hc))
    vals
  exact h.imp (fun hd => of_decide_eq_true hd)

/-- **C4.** For every non-empty list of numbers `_fast_stats` returns
count = length, mean = sum/length, min and max the least and greatest
elements, median the middle of the sorted list (odd length) or the
average of the two middle elements (even length), and a variance equal
to the population variance `sum((x-mean)^2)/n` — so the reported
std `variance ** 0.5` is the square root of the population variance. -/
theorem fbads_fast_stats_correct (vals : List ℚ) (hne : vals ≠ []) :
    (fastStats vals).count = vals.length ∧
    (fastStats vals).mean = some (vals.sum / (vals.length : ℚ)) ∧
    (∃ m, (fastStats vals).min = some m ∧ m ∈ vals ∧ ∀ x ∈ vals, m ≤ x) ∧
    (∃ M, (fastStats vals).max = some M ∧ M ∈ vals ∧ ∀ x ∈ vals, x ≤ M) ∧
    ((pySorted vals).Perm vals ∧ (pySorted vals).Sorted (· ≤ ·) ∧
      (fastStats vals).median = some
        (if vals.length % 2 = 1 then (pySorted vals).getD (vals.length / 2) 0
         else ((pySorted vals).getD (vals.length / 2 - 1) 0 +
            (pySorted vals).getD (vals.length / 2) 0) / 2)) ∧
    (fastStats vals).variance = some
      ((vals.map (fun x => (x - vals.sum / (vals.length : ℚ)) ^ 2)).sum /
        (vals.length : ℚ)) ∧
    Real.sqrt (((fastStats vals).variance.getD 0 : ℚ) : ℝ) =
      Real.sqrt (((vals.map
        (fun x => (x - vals.sum / (vals.length : ℚ)) ^ 2)).sum /
          (vals.length : ℚ) : ℚ) : ℝ) := by
  match vals with
  | [] => exact absurd rfl hne
  | [v] =>
    have h1 : fastStats [v] = ⟨1, some v, some 0, some v, some v, some v⟩ := rfl
    refine ⟨rfl, ?_, ?_, ?_, ?_, ?_, ?_⟩
    · rw [h1]
      simp
    · refine ⟨v, by rw [h1], by simp, ?_⟩
      intro x hx
      simp at hx
      rw [hx]
    · refine ⟨v, by rw [h1], by simp, ?_⟩
      intro x hx
      simp at hx
      rw [hx]
    · refine ⟨pySorted_perm [v], pySorted_sorted [v], ?_⟩
      rw [h1]
      norm_num [pySorted, sortBy, insertSorted]
    · rw [h1]
      norm_num
    · rw [h1]
      norm_num
  | v0 :: v1 :: rest =>
    refine ⟨rfl, rfl, ?_, ?_, ?_, rfl, rfl⟩
    · refine ⟨pyMinOf v0 (v1 :: rest), rfl, ?_, ?_⟩
      · exact foldl_min_mem (v1 :: rest) v0
      · intro x hx
        rcases List.mem_cons.mp hx with hx | hx
        · rw [hx]
          exact (foldl_min_le (v1 :: rest) v0).1
        · exact (foldl_min_le (v1 :: rest) v0).2 x hx
    · refine ⟨pyMaxOf v0 (v1 :: rest), rfl, ?_, ?_⟩
      · exact foldl_max_mem (v1 :: rest) v0
      · intro x hx
        rcases List.mem_cons.mp hx with hx | hx
        · rw [hx]
          exact (foldl_max_ge (v1 :: rest) v0).1
        · exact (foldl_max_ge (v1 :: rest) v0).2 x hx
    · exact ⟨pySorted_perm _, pySorted_sorted _, rfl⟩

/-- Witness for C4 at a concrete list. -/
theorem fbads_fast_stats_correct_witness :
    (([1, 2] : List ℚ) ≠ []) ∧ (fastStats [1, 2]).count = 2 :=
  ⟨List.cons_ne_nil 1 [2], (fbads_fast_stats_correct [1, 2] (List.cons_ne_nil 1 [2])).1⟩

end DescStats
